import Mathlib

/-!
Verification of the Minaret prayer-player core (custom_components/azan).

The definitions below are a shallow embedding of the Python source:

* `parseTime`, `buildPrayers`, `normalizeTimes` embed
  `AzanCoordinator._normalize_times` (coordinator.py), including the Python
  string cleaning pipeline `strip / split / int` and the validity checks of
  `datetime.replace` (an out-of-range or non-numeric component raises and
  aborts the whole normalization, which we model with `Option`).
* `refreshData` embeds the tail of `AzanCoordinator._async_update_data`
  (carrying `played_today` across a same-day refresh).
* `nextPrayer` embeds the selection loop of `_schedule_next_prayer`
  (`__init__.py`), `sensorNextPrayer` embeds
  `NextPrayerSensor._get_next_prayer` (sensor.py).
* `playAzan` embeds the control flow of `_play_azan` (`__init__.py`): the
  played-today guard, the audio-availability fallback, the
  missing-target early returns, the dispatch try/except, marking played,
  the 5-minute reset timer and the final re-arm.

Wall-clock times are modelled as minutes since local midnight (`Int`);
all times produced by the source are whole minutes (`second=0`), and
`datetime` comparison of same-day values coincides with comparison of
these minute counts.  Python's `sorted` is a stable sort by the given
key, which on lists coincides with `List.insertionSort` by the same key.
-/

namespace Minaret

/-- Canonical prayer-name order, from `const.PRAYER_ORDER`. -/
def PRAYER_ORDER : List String := ["Fajr", "Sunrise", "Dhuhr", "Asr", "Maghrib", "Isha"]

/-- The three prayer names the source treats as afternoon entries in
`_normalize_times` (the tuple `("Asr", "Maghrib", "Isha")`). -/
def AFTERNOON : List String := ["Asr", "Maghrib", "Isha"]

/-- ASCII whitespace, as stripped by Python `str.strip()`. -/
def isPySpace (c : Char) : Bool :=
  c == ' ' || c == '\t' || c == '\n' || c == '\x0d' || c == '\x0b' || c == '\x0c'

/-- Python `str.strip()` on a character list. -/
def pyStrip (l : List Char) : List Char :=
  ((l.dropWhile isPySpace).reverse.dropWhile isPySpace).reverse

/-- Python `str.split(sep)` for a one-character separator: splits at every
occurrence, keeping empty pieces, and always returns at least one piece. -/
def splitOnChar (c : Char) : List Char → List (List Char)
  | [] => [[]]
  | x :: xs =>
    match splitOnChar c xs with
    | [] => [[]]
    | y :: ys => if x = c then [] :: y :: ys else (x :: y) :: ys

/-- Numeric value of a decimal digit character. -/
def digitVal (c : Char) : Nat := c.toNat - '0'.toNat

/-- Value of a nonempty all-digit character list; `none` otherwise. -/
def digitsVal? (l : List Char) : Option Nat :=
  if l ≠ [] ∧ l.all Char.isDigit then
    some (l.foldl (fun acc c => 10 * acc + digitVal c) 0)
  else none

/-- Python `int(s)`: surrounding whitespace is ignored, an optional sign is
followed by decimal digits; anything else raises `ValueError` (`none`). -/
def pyInt? (l : List Char) : Option Int :=
  match pyStrip l with
  | '+' :: rest => (digitsVal? rest).map (fun n => (n : Int))
  | '-' :: rest => (digitsVal? rest).map (fun n => -(n : Int))
  | other => (digitsVal? other).map (fun n => (n : Int))

/-- The cleaning pipeline of `_normalize_times`:
`time_str.strip().split(" ")[0].split("(")[0].strip()`. -/
def timeClean (s : List Char) : List Char :=
  pyStrip ((splitOnChar '(' ((splitOnChar ' ' (pyStrip s)).headD [])).headD [])

/-- The colon split of the cleaned time string: `time_clean.split(":")`. -/
def timeParts (time_str : String) : List (List Char) :=
  splitOnChar ':' (timeClean time_str.data)

/-- The 12-hour heuristic of `_normalize_times`:
`if name in ("Asr", "Maghrib", "Isha") and hour < 10: hour += 12`. -/
def applyPmRule (name : String) (hour : Int) : Int :=
  if name ∈ AFTERNOON ∧ hour < 10 then hour + 12 else hour

/-- Outcome of processing one raw entry inside the `_normalize_times` loop:
`dropped` is the `continue` taken when fewer than two `":"`-separated parts
are found, `fatal` is an uncaught `ValueError` (non-numeric component, or a
value rejected by `datetime.replace`), and `ok` carries the hour (after the
12-hour heuristic) and minute. -/
inductive ParseOutcome where
  | dropped
  | fatal
  | ok (hour minute : Int)
  deriving DecidableEq, Repr

/-- Per-entry time parsing of `_normalize_times` (coordinator.py lines
184-199): clean, split on `":"`, require two parts, convert with `int`,
apply the 12-hour heuristic, and validate ranges as `datetime.replace`
does. -/
def parseTime (name : String) (time_str : String) : ParseOutcome :=
  let parts := timeParts time_str
  if parts.length < 2 then .dropped
  else
    match pyInt? (parts.headD []), pyInt? ((parts.drop 1).headD []) with
    | some h, some m =>
      let hour := applyPmRule name h
      if 0 ≤ hour ∧ hour ≤ 23 ∧ 0 ≤ m ∧ m ≤ 59 then .ok hour m else .fatal
    | _, _ => .fatal

/-- Python `f"{n:02d}"` on the values reachable here (0 ≤ n < 100 after
validation): zero-padded to two digits. -/
def fmt2 (n : Int) : String :=
  if 0 ≤ n ∧ n < 10 then "0" ++ toString n else toString n

/-- Rendering `f"{hour:02d}:{minute:02d}"` from `_normalize_times`. -/
def fmtHM (h m : Int) : String := fmt2 h ++ ":" ++ fmt2 m

/-- One prayer entry of the normalized schedule: the dict
`{"name": ..., "time": ..., "time_str": ..., "enabled": ...}` built by
`_normalize_times`, with the `datetime` field reduced to minutes since
local midnight. -/
structure Prayer where
  name : String
  time : Int
  time_str : String
  enabled : Bool
  deriving DecidableEq, Repr

/-- The dict appended by `_normalize_times` for a parsed entry. -/
def mkPrayer (name : String) (hour minute : Int) (enabled : Bool) : Prayer :=
  { name := name, time := 60 * hour + minute, time_str := fmtHM hour minute,
    enabled := enabled }

/-- Sort key of `_normalize_times`:
`PRAYER_ORDER.index(x[0]) if x[0] in PRAYER_ORDER else 99`. -/
def prayerIdxKey (e : String × String) : Nat :=
  if e.1 ∈ PRAYER_ORDER then PRAYER_ORDER.indexOf e.1 else 99

/-- Comparison used to sort raw entries by `prayerIdxKey`. -/
def keyLe (a b : String × String) : Prop := prayerIdxKey a ≤ prayerIdxKey b

instance : DecidableRel keyLe := fun a b =>
  inferInstanceAs (Decidable (prayerIdxKey a ≤ prayerIdxKey b))

instance : IsTotal (String × String) keyLe := ⟨fun x y => Nat.le_total (prayerIdxKey x) (prayerIdxKey y)⟩

instance : IsTrans (String × String) keyLe := ⟨fun _ _ _ => Nat.le_trans⟩

/-- The loop body of `_normalize_times` over the sorted entries: unknown
names are skipped, a `dropped` parse is skipped, a `fatal` parse aborts
the whole build, and an `ok` parse appends a prayer dict with the enabled
flag looked up as `enabled_map.get(name, False)`. -/
def buildPrayers (em : String → Bool) : List (String × String) → Option (List Prayer)
  | [] => some []
  | (name, ts) :: rest =>
    if name ∈ PRAYER_ORDER then
      match parseTime name ts with
      | .dropped => buildPrayers em rest
      | .fatal => none
      | .ok h m => (buildPrayers em rest).map (fun ps => mkPrayer name h m (em name) :: ps)
    else buildPrayers em rest

/-- `_normalize_times(raw)`: sort the raw items by canonical position
(stably, as Python `sorted` does), then run the parsing loop.  Both
provider fetch paths of `_async_update_data` feed this same method; it
takes no provider argument. -/
def normalizeTimes (em : String → Bool) (raw : List (String × String)) : Option (List Prayer) :=
  buildPrayers em (List.insertionSort keyLe raw)

/-- The `enabled_map` of `_normalize_times`, built from the six per-prayer
config toggles; lookups outside the six keys default to `False`. -/
def enabledMap (fajr sunrise dhuhr asr maghrib isha : Bool) : String → Bool := fun n =>
  if n = "Fajr" then fajr
  else if n = "Sunrise" then sunrise
  else if n = "Dhuhr" then dhuhr
  else if n = "Asr" then asr
  else if n = "Maghrib" then maghrib
  else if n = "Isha" then isha
  else false

/-- The config defaults of `_normalize_times`: Sunrise disabled, the other
five enabled. -/
def defaultEnabledMap : String → Bool := enabledMap true false true true true true

/-- `PrayerData` (coordinator.py): the day's schedule, its date string, and
the set of prayer names already played today (as a list, used only through
membership). -/
structure PrayerData where
  prayers : List Prayer
  date : String
  played_today : List String
  deriving DecidableEq, Repr

/-- Tail of `_async_update_data`: build a fresh `PrayerData` whose
`played_today` starts empty, then copy the previous day's set over it
exactly when the previous data exists and carries the same date. -/
def refreshData (prev : Option PrayerData) (today : String) (prayers : List Prayer) : PrayerData :=
  let fresh : PrayerData := { prayers := prayers, date := today, played_today := [] }
  match prev with
  | some old => if old.date = today then { fresh with played_today := old.played_today } else fresh
  | none => fresh

/-- Offset applied by `_schedule_next_prayer`: the configured minutes for
Sunrise, zero for every other prayer. -/
def sunriseOffset (name : String) (offset : Int) : Int :=
  if name = "Sunrise" then offset else 0

/-- Selection loop of `_schedule_next_prayer` (`__init__.py` lines
614-636): walk the schedule in order, skip disabled prayers and prayers in
`played_today`, and return the first whose offset-adjusted time is
strictly after `now`. -/
def nextPrayer (played : List String) (offset now : Int) : List Prayer → Option Prayer
  | [] => none
  | p :: rest =>
    if ¬ p.enabled then nextPrayer played offset now rest
    else if p.name ∈ played then nextPrayer played offset now rest
    else if p.time - sunriseOffset p.name offset > now then some p
    else nextPrayer played offset now rest

/-- `NextPrayerSensor._get_next_prayer` (sensor.py lines 206-222): first
enabled prayer whose raw time is strictly after `now`; `played_today` is
not consulted and no offset is subtracted. -/
def sensorNextPrayer (now : Int) : List Prayer → Option Prayer
  | [] => none
  | p :: rest =>
    if ¬ p.enabled then sensorNextPrayer now rest
    else if p.time > now then some p
    else sensorNextPrayer now rest

/-- The playback-state slice of the integration store mutated by
`_play_azan`, together with the coordinator's `played_today` set. -/
structure PlayState where
  is_playing : Bool
  currently_playing : Option String
  played_today : List String
  deriving DecidableEq, Repr

/-- Observable effects of one `_play_azan` call: the final state, whether
`_schedule_next_prayer` was invoked before returning, and whether the
5-minute playback reset timer was armed. -/
structure PlayEffects where
  state : PlayState
  rearmed : Bool
  resetTimerScheduled : Bool
  deriving DecidableEq, Repr

/-- Control flow of `_play_azan` (`__init__.py` lines 343-536).  External
outcomes are parameters: `audioAvailable` is whether an audio file exists
after the fallback chain, `dispatchOk` is whether the service calls of the
try block succeed (an exception lands in the handler), `hasData` is the
truthiness of `coordinator.data`, and the two `Configured` flags are
whether the playback target of the active mode is configured. -/
def playAzan (prayer_name mode : String)
    (mediaPlayerConfigured notifyConfigured audioAvailable dispatchOk hasData : Bool)
    (st : PlayState) : PlayEffects :=
  if prayer_name ≠ "Test" ∧ hasData ∧ prayer_name ∈ st.played_today then
    { state := st, rearmed := false, resetTimerScheduled := false }
  else if ¬ audioAvailable then
    { state := st, rearmed := true, resetTimerScheduled := false }
  else
    let st1 := { st with is_playing := true, currently_playing := some prayer_name }
    if mode = "media_player" ∧ ¬ mediaPlayerConfigured then
      { state := st1, rearmed := false, resetTimerScheduled := false }
    else if mode ≠ "media_player" ∧ ¬ notifyConfigured then
      { state := st1, rearmed := false, resetTimerScheduled := false }
    else if ¬ dispatchOk then
      { state := { st1 with is_playing := false, currently_playing := none },
        rearmed := true, resetTimerScheduled := false }
    else
      let st2 := if prayer_name ≠ "Test" ∧ hasData
        then { st1 with played_today := st1.played_today.insert prayer_name }
        else st1
      { state := st2, rearmed := true, resetTimerScheduled := true }

/-- Follows the spec's words for claim C2 only (not the source): the
12-hour adjustment conditioned on the source being the Qatar MOI
provider.  Compared against the source-derived `applyPmRule`. -/
def applyPmRuleSpec (isQatarMoi : Bool) (name : String) (hour : Int) : Int :=
  if isQatarMoi ∧ name ∈ AFTERNOON ∧ hour < 10 then hour + 12 else hour

/-- Whether a parse outcome is a successfully parsed time. -/
def ParseOutcome.isOk : ParseOutcome → Bool
  | .ok _ _ => true
  | _ => false

/-- The name a raw entry contributes to the built schedule, if any: its own
name when it is canonical and its time parses. -/
def entryName? (e : String × String) : Option String :=
  if e.1 ∈ PRAYER_ORDER ∧ (parseTime e.1 e.2).isOk then some e.1 else none

/-- The prayer a raw entry contributes to the built schedule, if any. -/
def entryPrayer? (em : String → Bool) (e : String × String) : Option Prayer :=
  match parseTime e.1 e.2 with
  | .ok h m => if e.1 ∈ PRAYER_ORDER then some (mkPrayer e.1 h m (em e.1)) else none
  | _ => none

/-- The condition the selection loop of `_schedule_next_prayer` tests:
enabled, not yet played, and offset-adjusted time strictly after `now`. -/
def selectable (played : List String) (offset now : Int) (p : Prayer) : Bool :=
  p.enabled && !(decide (p.name ∈ played)) && decide (p.time - sunriseOffset p.name offset > now)

/-! ### Helper lemmas about the Python string primitives -/

lemma splitOnChar_cons (c x : Char) (xs : List Char) :
    splitOnChar c (x :: xs) =
      match splitOnChar c xs with
      | [] => [[]]
      | y :: ys => if x = c then [] :: y :: ys else (x :: y) :: ys := rfl

lemma splitOnChar_ne_nil (c : Char) (l : List Char) : splitOnChar c l ≠ [] := by
  induction l with
  | nil => simp [splitOnChar]
  | cons x xs ih =>
    rw [splitOnChar_cons]
    rcases hs : splitOnChar c xs with _ | ⟨y, ys⟩
    · exact absurd hs ih
    · by_cases hx : x = c <;> simp [hx]

lemma splitOnChar_of_not_mem {c : Char} {l : List Char} (h : c ∉ l) : splitOnChar c l = [l] := by
  induction l with
  | nil => rfl
  | cons x xs ih =>
    have hx : ¬ x = c := fun e => h (e ▸ List.mem_cons_self x xs)
    have hm : c ∉ xs := fun m => h (List.mem_cons_of_mem _ m)
    rw [splitOnChar_cons, ih hm]
    simp [hx]

lemma splitOnChar_append {c : Char} {a b : List Char} (h : c ∉ a) :
    splitOnChar c (a ++ c :: b) = a :: splitOnChar c b := by
  induction a with
  | nil =>
    simp only [List.nil_append]
    rw [splitOnChar_cons]
    rcases hs : splitOnChar c b with _ | ⟨y, ys⟩
    · exact absurd hs (splitOnChar_ne_nil c b)
    · simp
  | cons d a' ih =>
    have hd : ¬ d = c := fun e => h (e ▸ List.mem_cons_self d a')
    have h' : c ∉ a' := fun m => h (List.mem_cons_of_mem _ m)
    simp only [List.cons_append]
    rw [splitOnChar_cons, ih h']
    simp [hd]

lemma pyStrip_eq_self {l : List Char} (h : ∀ ch ∈ l, isPySpace ch = false) : pyStrip l = l := by
  unfold pyStrip
  have h1 : l.dropWhile isPySpace = l := by
    cases l with
    | nil => rfl
    | cons x xs => rw [List.dropWhile_cons_of_neg]; simp [h x (List.mem_cons_self x xs)]
  rw [h1]
  have h2 : l.reverse.dropWhile isPySpace = l.reverse := by
    cases hr : l.reverse with
    | nil => rfl
    | cons x xs =>
      rw [List.dropWhile_cons_of_neg]
      have : x ∈ l := by
        rw [← List.mem_reverse, hr]; exact List.mem_cons_self x xs
      simp [h x this]
  rw [h2, List.reverse_reverse]

lemma timeClean_eq_self {l : List Char}
    (h : ∀ ch ∈ l, isPySpace ch = false ∧ ch ≠ '(') : timeClean l = l := by
  have hs : pyStrip l = l := pyStrip_eq_self (fun ch m => (h ch m).1)
  have hsp : ' ' ∉ l := fun m => by have := (h _ m).1; simp [isPySpace] at this
  have hp : '(' ∉ l := fun m => (h _ m).2 rfl
  unfold timeClean
  rw [hs, splitOnChar_of_not_mem hsp]
  simp only [List.headD_cons]
  rw [splitOnChar_of_not_mem hp]
  simp only [List.headD_cons]
  exact hs

lemma fmt2_chars (n : Nat) (hn : n < 100) :
    ∀ ch ∈ (fmt2 (n : Int)).data, isPySpace ch = false ∧ ch ≠ '(' ∧ ch ≠ ':' := by
  have hall : ∀ k : Nat, k < 100 →
      ((fmt2 (k : Int)).data.all
        (fun ch => !(isPySpace ch) && !(ch == '(') && !(ch == ':'))) = true := by decide
  intro ch hm
  have := List.all_eq_true.mp (hall n hn) ch hm
  simp only [Bool.and_eq_true, Bool.not_eq_true', beq_eq_false_iff_ne, ne_eq] at this
  exact ⟨this.1.1, this.1.2, this.2⟩

lemma pyInt?_fmt2 (n : Nat) (hn : n < 100) : pyInt? (fmt2 (n : Int)).data = some (n : Int) := by
  revert hn; revert n; decide

lemma data_fmtHM (h m : Int) :
    (fmtHM h m).data = (fmt2 h).data ++ ':' :: (fmt2 m).data := by
  simp [fmtHM, String.data_append]

lemma timeParts_fmtHM (h m : Nat) (hh : h < 100) (hm : m < 100) :
    timeParts (fmtHM (h : Int) (m : Int)) = [(fmt2 (h : Int)).data, (fmt2 (m : Int)).data] := by
  unfold timeParts
  rw [data_fmtHM]
  have hcombined : ∀ ch ∈ (fmt2 (h : Int)).data ++ ':' :: (fmt2 (m : Int)).data,
      isPySpace ch = false ∧ ch ≠ '(' := by
    intro ch hmem
    rcases List.mem_append.mp hmem with hl | hr
    · exact ⟨(fmt2_chars h hh ch hl).1, (fmt2_chars h hh ch hl).2.1⟩
    · rcases List.mem_cons.mp hr with rfl | hr'
      · exact ⟨by decide, by decide⟩
      · exact ⟨(fmt2_chars m hm ch hr').1, (fmt2_chars m hm ch hr').2.1⟩
  rw [timeClean_eq_self hcombined]
  have hnh : ':' ∉ (fmt2 (h : Int)).data := fun hmem => (fmt2_chars h hh _ hmem).2.2 rfl
  have hnm : ':' ∉ (fmt2 (m : Int)).data := fun hmem => (fmt2_chars m hm _ hmem).2.2 rfl
  rw [splitOnChar_append hnh, splitOnChar_of_not_mem hnm]

lemma applyPmRule_bounds (name : String) (h : Nat) (hh : h ≤ 23) :
    0 ≤ applyPmRule name (h : Int) ∧ applyPmRule name (h : Int) ≤ 23 := by
  unfold applyPmRule
  split_ifs with hc
  · omega
  · omega

lemma parseTime_fmtHM (name : String) (h m : Nat) (hh : h ≤ 23) (hm : m ≤ 59) :
    parseTime name (fmtHM (h : Int) (m : Int)) =
      ParseOutcome.ok (applyPmRule name (h : Int)) (m : Int) := by
  unfold parseTime
  rw [timeParts_fmtHM h m (by omega) (by omega)]
  simp only [List.length_cons, List.length_nil, List.headD_cons, List.drop_succ_cons,
    List.drop_zero]
  rw [if_neg (by omega)]
  rw [pyInt?_fmt2 h (by omega), pyInt?_fmt2 m (by omega)]
  simp only []
  have hb := applyPmRule_bounds name h hh
  rw [if_pos ⟨hb.1, hb.2, by omega, by omega⟩]

/-! ### Helper lemmas about the selection loops -/

lemma nextPrayer_eq_find? (played : List String) (offset now : Int) :
    ∀ prayers, nextPrayer played offset now prayers
      = prayers.find? (selectable played offset now) := by
  intro prayers
  induction prayers with
  | nil => rfl
  | cons p rest ih =>
    simp only [nextPrayer, List.find?_cons, selectable]
    by_cases he : p.enabled
    · by_cases hp : p.name ∈ played
      · simp [he, hp, ih]
      · by_cases ht : p.time - sunriseOffset p.name offset > now
        · simp [he, hp, ht]
        · simp [he, hp, ht, ih]
    · simp [he, ih]

lemma nextPrayer_some {played : List String} {offset now : Int} {prayers : List Prayer}
    {p : Prayer} (h : nextPrayer played offset now prayers = some p) :
    p.enabled = true ∧ p.name ∉ played ∧ p.time - sunriseOffset p.name offset > now := by
  rw [nextPrayer_eq_find?] at h
  have := List.find?_some h
  simp only [selectable, Bool.and_eq_true, Bool.not_eq_true', decide_eq_false_iff_not,
    decide_eq_true_eq] at this
  exact ⟨this.1.1, this.1.2, this.2⟩

lemma nextPrayer_none {played : List String} {offset now : Int} {prayers : List Prayer}
    (h : ∀ p ∈ prayers, ¬ p.enabled ∨ p.name ∈ played) :
    nextPrayer played offset now prayers = none := by
  induction prayers with
  | nil => rfl
  | cons p rest ih =>
    have hp := h p (List.mem_cons_self p rest)
    have hrest : ∀ q ∈ rest, ¬ q.enabled ∨ q.name ∈ played :=
      fun q hq => h q (List.mem_cons_of_mem _ hq)
    rcases hp with he | hpl
    · simp only [nextPrayer, if_pos he]
      exact ih hrest
    · simp only [nextPrayer]
      by_cases he : p.enabled
      · simp only [he, not_true_eq_false, if_false, if_pos hpl]
        exact ih hrest
      · simp only [he, not_false_eq_true, if_true]
        exact ih hrest

/-! ### Claims -/

/-- C1: next-prayer selection scans the schedule in order, skips disabled
and already-played prayers, subtracts the offset (nonzero only for
Sunrise) and returns the first prayer whose effective time is strictly
after `now`, returning `none` when no prayer qualifies; on the schedule
Fajr=05:00 enabled, Sunrise=06:30 disabled, Dhuhr=12:00 enabled at
now=05:30 it selects Dhuhr, for every configured offset. -/
theorem next_prayer_selection :
    (∀ (played : List String) (offset now : Int) (prayers : List Prayer),
      nextPrayer played offset now prayers
        = prayers.find? (selectable played offset now)) ∧
    (∀ offset : Int,
      nextPrayer [] offset 330
        [⟨"Fajr", 300, "05:00", true⟩, ⟨"Sunrise", 390, "06:30", false⟩,
         ⟨"Dhuhr", 720, "12:00", true⟩]
        = some ⟨"Dhuhr", 720, "12:00", true⟩) := by
  constructor
  · exact fun played offset now => nextPrayer_eq_find? played offset now
  · intro offset
    simp [nextPrayer, sunriseOffset]

/-- C4: after a refresh the new `played_today` equals the previous one
exactly when the previous data exists and carries today's date, and is
empty otherwise (different date, or no previous data). -/
theorem day_rollover_played_set (prev : Option PrayerData) (today : String)
    (prayers : List Prayer) :
    (∀ old, prev = some old → old.date = today →
      (refreshData prev today prayers).played_today = old.played_today) ∧
    (∀ old, prev = some old → old.date ≠ today →
      (refreshData prev today prayers).played_today = []) ∧
    (prev = none → (refreshData prev today prayers).played_today = []) := by
  refine ⟨?_, ?_, ?_⟩
  · intro old hprev hdate
    subst hprev
    simp [refreshData, hdate]
  · intro old hprev hdate
    subst hprev
    simp [refreshData, hdate]
  · intro hprev
    subst hprev
    simp [refreshData]

/-- Witness for C4 at concrete inputs: same-day refresh keeps the played
set, a date change (day rollover) and an absent previous schedule clear
it. -/
theorem day_rollover_played_set_witness :
    (refreshData (some ⟨[], "2026-10-12", ["Fajr"]⟩) "2026-10-12" []).played_today = ["Fajr"] ∧
    (refreshData (some ⟨[], "2026-10-12", ["Fajr"]⟩) "2026-10-13" []).played_today = [] ∧
    (refreshData none "2026-10-13" []).played_today = [] :=
  ⟨(day_rollover_played_set (some ⟨[], "2026-10-12", ["Fajr"]⟩) "2026-10-12" []).1
      ⟨[], "2026-10-12", ["Fajr"]⟩ rfl rfl,
   (day_rollover_played_set (some ⟨[], "2026-10-12", ["Fajr"]⟩) "2026-10-13" []).2.1
      ⟨[], "2026-10-12", ["Fajr"]⟩ rfl (by decide),
   (day_rollover_played_set none "2026-10-13" []).2.2 rfl⟩

/-- C5: the selection never returns a prayer whose name is in
`played_today`, even if its time has not yet been reached; and over a
schedule whose prayers are all disabled or all played it returns
`none`. -/
theorem played_set_guard (prayers : List Prayer) (played : List String) (offset now : Int) :
    (∀ p, nextPrayer played offset now prayers = some p → p.name ∉ played) ∧
    ((∀ p ∈ prayers, ¬ p.enabled ∨ p.name ∈ played) →
      nextPrayer played offset now prayers = none) := by
  constructor
  · intro p hp
    exact (nextPrayer_some hp).2.1
  · exact nextPrayer_none

/-- Witness for C5 at concrete inputs: a selected prayer is outside the
played set, and a schedule whose prayers are all played or disabled
(Fajr played before its 05:00 time, Sunrise disabled) selects nothing. -/
theorem played_set_guard_witness :
    ("Dhuhr" : String) ∉ (["Fajr"] : List String) ∧
    nextPrayer ["Fajr"] 0 0 [⟨"Fajr", 300, "05:00", true⟩, ⟨"Sunrise", 390, "06:30", false⟩]
      = none :=
  ⟨(played_set_guard [⟨"Dhuhr", 720, "12:00", true⟩] ["Fajr"] 0 0).1
      ⟨"Dhuhr", 720, "12:00", true⟩ (by decide),
   (played_set_guard [⟨"Fajr", 300, "05:00", true⟩, ⟨"Sunrise", 390, "06:30", false⟩]
      ["Fajr"] 0 0).2 (by decide)⟩

/-- C10: the Next Prayer sensor ignores `played_today` and applies no
Sunrise offset, so its selection can disagree with the scheduler's: with
Fajr played before its time the sensor still names Fajr while the
scheduler picks Dhuhr, and with Sunrise enabled under a 30-minute offset,
at a `now` between the offset time and the raw time, the sensor names
Sunrise while the scheduler arms nothing. -/
theorem sensor_scheduler_divergence :
    (sensorNextPrayer 240 [⟨"Fajr", 300, "05:00", true⟩, ⟨"Dhuhr", 720, "12:00", true⟩]
        = some ⟨"Fajr", 300, "05:00", true⟩ ∧
      nextPrayer ["Fajr"] 0 240 [⟨"Fajr", 300, "05:00", true⟩, ⟨"Dhuhr", 720, "12:00", true⟩]
        = some ⟨"Dhuhr", 720, "12:00", true⟩ ∧
      sensorNextPrayer 240 [⟨"Fajr", 300, "05:00", true⟩, ⟨"Dhuhr", 720, "12:00", true⟩]
        ≠ nextPrayer ["Fajr"] 0 240
            [⟨"Fajr", 300, "05:00", true⟩, ⟨"Dhuhr", 720, "12:00", true⟩]) ∧
    (sensorNextPrayer 370 [⟨"Sunrise", 390, "06:30", true⟩]
        = some ⟨"Sunrise", 390, "06:30", true⟩ ∧
      nextPrayer [] 30 370 [⟨"Sunrise", 390, "06:30", true⟩] = none) := by
  refine ⟨⟨?_, ?_, ?_⟩, ?_, ?_⟩ <;> decide

/-- Counterexample to C2 as stated: the source's 12-hour adjustment (used
unchanged on both provider paths, since `_normalize_times` takes no
provider argument) turns Isha "03:00" into hour 15, while the claim's
source-conditional rule leaves hour 3 unchanged for the non-Qatar
provider. -/
theorem pm_rule_not_provider_conditional :
    parseTime "Isha" "03:00" = ParseOutcome.ok 15 0 ∧
    applyPmRuleSpec false "Isha" 3 = 3 ∧
    applyPmRule "Isha" 3 ≠ applyPmRuleSpec false "Isha" 3 := by
  refine ⟨?_, ?_, ?_⟩ <;> decide

/-- C2 as amended: the 12-hour adjustment is applied by the shared
normalization for every provider — a parsed hour below 10 for Asr,
Maghrib or Isha has 12 added, all other names are never adjusted — and
the full per-entry parse realizes exactly this rule; "03:00" parses to
hour 15 for Isha and hour 3 for Fajr. -/
theorem pm_rule_unconditional :
    (∀ (name : String) (h : Int), name ∈ AFTERNOON → h < 10 →
      applyPmRule name h = h + 12) ∧
    (∀ (name : String) (h : Int), name ∉ AFTERNOON ∨ 10 ≤ h →
      applyPmRule name h = h) ∧
    (∀ (name : String) (h m : Nat), h ≤ 23 → m ≤ 59 →
      parseTime name (fmtHM (h : Int) (m : Int))
        = ParseOutcome.ok (applyPmRule name (h : Int)) (m : Int)) ∧
    parseTime "Isha" "03:00" = ParseOutcome.ok 15 0 ∧
    parseTime "Fajr" "03:00" = ParseOutcome.ok 3 0 := by
  refine ⟨?_, ?_, ?_, by decide, by decide⟩
  · intro name h hmem hlt
    simp [applyPmRule, hmem, hlt]
  · intro name h hcond
    rcases hcond with hmem | hge
    · simp [applyPmRule, hmem]
    · have : ¬ ((h : Int) < 10) := by omega
      simp [applyPmRule, this]
  · intro name h m hh hm
    exact parseTime_fmtHM name h m hh hm

/-- Witness for C2's amended theorem at concrete inputs. -/
theorem pm_rule_unconditional_witness :
    applyPmRule "Asr" 3 = 15 ∧ applyPmRule "Fajr" 3 = 3 ∧
    parseTime "Dhuhr" (fmtHM 12 5) = ParseOutcome.ok (applyPmRule "Dhuhr" 12) 5 :=
  ⟨pm_rule_unconditional.1 "Asr" 3 (by decide) (by decide),
   pm_rule_unconditional.2.1 "Fajr" 3 (Or.inl (by decide)),
   pm_rule_unconditional.2.2.1 "Dhuhr" 12 5 (by decide) (by decide)⟩

/-- Counterexample to C3 as stated: parsing "03:30" for Asr and rendering
back yields "15:30", not the original pair (3, 30) — the 12-hour
adjustment breaks the round trip for afternoon names with hour below
10. -/
theorem round_trip_fails_for_afternoon :
    normalizeTimes defaultEnabledMap [("Asr", "03:30")]
      = some [⟨"Asr", 930, "15:30", true⟩] ∧
    ("15:30" : String) ≠ "03:30" := by
  constructor <;> decide

/-- C3 as amended: for every raw "HH:MM" with 0 ≤ HH ≤ 23 and
0 ≤ MM ≤ 59, parsing and rendering round-trips to the same (HH, MM) pair
for Fajr, Sunrise and Dhuhr always, and for Asr, Maghrib and Isha exactly
when HH ≥ 10; for those three names with HH < 10 the result renders as
(HH+12, MM). -/
theorem round_trip_characterization (em : String → Bool) (name : String) (h m : Nat)
    (hh : h ≤ 23) (hm : m ≤ 59) (hname : name ∈ PRAYER_ORDER) :
    ((name ∉ AFTERNOON ∨ 10 ≤ h) →
      normalizeTimes em [(name, fmtHM (h : Int) (m : Int))]
        = some [⟨name, 60 * h + m, fmtHM (h : Int) (m : Int), em name⟩]) ∧
    (name ∈ AFTERNOON → h < 10 →
      normalizeTimes em [(name, fmtHM (h : Int) (m : Int))]
        = some [⟨name, 60 * (h + 12) + m, fmtHM ((h : Int) + 12) (m : Int), em name⟩]) := by
  have hsort : List.insertionSort keyLe [(name, fmtHM (h : Int) (m : Int))]
      = [(name, fmtHM (h : Int) (m : Int))] := rfl
  constructor
  · intro hcond
    have hrule : applyPmRule name (h : Int) = (h : Int) := by
      rcases hcond with hmem | hge
      · simp [applyPmRule, hmem]
      · have : ¬ ((h : Int) < 10) := by omega
        simp [applyPmRule, this]
    unfold normalizeTimes
    rw [hsort]
    simp only [buildPrayers, if_pos hname, parseTime_fmtHM name h m hh hm, hrule,
      Option.map_some]
    rfl
  · intro hmem hlt
    have hrule : applyPmRule name (h : Int) = (h : Int) + 12 := by
      have : (h : Int) < 10 := by omega
      simp [applyPmRule, hmem, this]
    unfold normalizeTimes
    rw [hsort]
    simp only [buildPrayers, if_pos hname, parseTime_fmtHM name h m hh hm, hrule,
      Option.map_some]
    rfl

/-- Witness for C3's amended theorem at concrete inputs: Fajr "05:12"
round-trips, Asr "03:30" renders as "15:30". -/
theorem round_trip_characterization_witness :
    normalizeTimes defaultEnabledMap [("Fajr", fmtHM 5 12)]
      = some [⟨"Fajr", 312, fmtHM 5 12, defaultEnabledMap "Fajr"⟩] ∧
    normalizeTimes defaultEnabledMap [("Asr", fmtHM 3 30)]
      = some [⟨"Asr", 930, fmtHM (3 + 12) 30, defaultEnabledMap "Asr"⟩] :=
  ⟨(round_trip_characterization defaultEnabledMap "Fajr" 5 12 (by decide) (by decide)
      (by decide)).1 (Or.inl (by decide)),
   (round_trip_characterization defaultEnabledMap "Asr" 3 30 (by decide) (by decide)
      (by decide)).2 (by decide) (by decide)⟩

/-- C6: when the playback dispatch fails (the try block raises), the
prayer is not added to `played_today` and `_schedule_next_prayer` is
still invoked, so a failed firing never leaves the loop without an
outstanding timer; the handler also clears the playing flags and arms no
reset timer. -/
theorem dispatch_failure_recovery (prayer_name mode : String)
    (mpc nc hasData : Bool) (st : PlayState)
    (hguard : ¬ (prayer_name ≠ "Test" ∧ hasData = true ∧ prayer_name ∈ st.played_today))
    (hmedia : mode = "media_player" → mpc = true)
    (hnotify : mode ≠ "media_player" → nc = true) :
    playAzan prayer_name mode mpc nc true false hasData st
      = ⟨{ st with is_playing := false, currently_playing := none }, true, false⟩ := by
  unfold playAzan
  rw [if_neg hguard]
  rw [if_neg (by simp)]
  by_cases hm : mode = "media_player"
  · rw [if_neg (by simp [hmedia hm])]
    rw [if_neg (by simp [hm])]
    rw [if_pos (by simp)]
  · rw [if_neg (by simp [hm])]
    rw [if_neg (by simp [hnotify hm])]
    rw [if_pos (by simp)]

/-- Witness for C6 at concrete inputs: a failed media-player dispatch for
Fajr leaves the played set untouched and re-arms the scheduler. -/
theorem dispatch_failure_recovery_witness :
    playAzan "Fajr" "media_player" true true true false true ⟨false, none, []⟩
      = ⟨⟨false, none, []⟩, true, false⟩ :=
  dispatch_failure_recovery "Fajr" "media_player" true true true ⟨false, none, []⟩
    (by decide) (fun _ => rfl) (fun hne => rfl)

/-- C9: in media-player mode with no media player configured, or in
Android-VLC mode with no notify service configured, `_play_azan` returns
right after setting `is_playing` and `currently_playing` — the prayer is
not marked played, the 5-minute reset timer is not armed, and the
next-prayer timer is not re-armed, leaving the exposed status stuck on
"playing" with no outstanding timer. -/
theorem missing_target_leaves_playing (prayer_name mode : String)
    (mpc nc dispatchOk hasData : Bool) (st : PlayState)
    (hguard : ¬ (prayer_name ≠ "Test" ∧ hasData = true ∧ prayer_name ∈ st.played_today))
    (htarget : (mode = "media_player" ∧ mpc = false) ∨ (mode = "android_vlc" ∧ nc = false)) :
    playAzan prayer_name mode mpc nc true dispatchOk hasData st
      = ⟨{ st with is_playing := true, currently_playing := some prayer_name },
         false, false⟩ := by
  unfold playAzan
  rw [if_neg hguard]
  rw [if_neg (by simp)]
  rcases htarget with ⟨hm, hc⟩ | ⟨hm, hc⟩
  · rw [if_pos (by simp [hm, hc])]
  · rw [if_neg (by simp [hm])]
    rw [if_pos (by simp [hm, hc])]

/-- Witness for C9 at concrete inputs, exercising both missing-target
branches. -/
theorem missing_target_leaves_playing_witness :
    playAzan "Fajr" "media_player" false true true true true ⟨false, none, []⟩
      = ⟨⟨true, some "Fajr", []⟩, false, false⟩ ∧
    playAzan "Isha" "android_vlc" true false true true true ⟨false, none, []⟩
      = ⟨⟨true, some "Isha", []⟩, false, false⟩ :=
  ⟨missing_target_leaves_playing "Fajr" "media_player" false true true true
      ⟨false, none, []⟩ (by decide) (Or.inl ⟨rfl, rfl⟩),
   missing_target_leaves_playing "Isha" "android_vlc" true false true true
      ⟨false, none, []⟩ (by decide) (Or.inr ⟨rfl, rfl⟩)⟩

/-- Counterexample to C7 as stated: an entry with non-numeric hour/minute
components ("ab:cd" splits into two parts, so it is not dropped) makes
`int()` raise, aborting the whole normalization — the claim's promise
that a malformed entry is dropped and the rest of the schedule is still
built fails: Dhuhr "12:00" is lost too. -/
theorem malformed_entry_can_be_fatal :
    normalizeTimes defaultEnabledMap [("Fajr", "ab:cd"), ("Dhuhr", "12:00")] = none := by
  decide

/-- C7 as amended: the parse strips a trailing parenthesized piece and a
trailing space-separated piece and splits on ":"; an entry with fewer
than two ":"-separated parts is dropped without affecting the rest of the
build, and so is an entry with a non-canonical name — but an entry whose
hour or minute component fails `int()` (or is out of range) aborts the
whole build instead of being dropped. -/
theorem malformed_time_handling (em : String → Bool) (name ts : String)
    (rest : List (String × String)) :
    (name ∈ PRAYER_ORDER → parseTime name ts = ParseOutcome.dropped →
      buildPrayers em ((name, ts) :: rest) = buildPrayers em rest) ∧
    (name ∉ PRAYER_ORDER → buildPrayers em ((name, ts) :: rest) = buildPrayers em rest) ∧
    (name ∈ PRAYER_ORDER → parseTime name ts = ParseOutcome.fatal →
      buildPrayers em ((name, ts) :: rest) = none) ∧
    ((timeParts ts).length < 2 → parseTime name ts = ParseOutcome.dropped) ∧
    parseTime "Fajr" " 05:12 (EST)" = ParseOutcome.ok 5 12 ∧
    parseTime "Fajr" "ab:cd" = ParseOutcome.fatal := by
  refine ⟨?_, ?_, ?_, ?_, by decide, by decide⟩
  · intro hname hdrop
    simp only [buildPrayers, if_pos hname, hdrop]
  · intro hname
    simp only [buildPrayers, if_neg hname]
  · intro hname hfatal
    simp only [buildPrayers, if_pos hname, hfatal]
  · intro hlen
    simp only [parseTime]
    rw [if_pos hlen]

/-- Witness for C7's amended theorem at concrete inputs: a colon-less
entry and an unknown name are dropped non-fatally, a non-numeric entry is
fatal. -/
theorem malformed_time_handling_witness :
    buildPrayers defaultEnabledMap [("Fajr", "0512"), ("Dhuhr", "12:00")]
      = buildPrayers defaultEnabledMap [("Dhuhr", "12:00")] ∧
    buildPrayers defaultEnabledMap [("Shurooq", "06:30")]
      = buildPrayers defaultEnabledMap [] ∧
    buildPrayers defaultEnabledMap [("Fajr", "ab:cd"), ("Dhuhr", "12:00")] = none ∧
    parseTime "Isha" "0745" = ParseOutcome.dropped :=
  ⟨(malformed_time_handling defaultEnabledMap "Fajr" "0512" [("Dhuhr", "12:00")]).1
      (by decide) (by decide),
   (malformed_time_handling defaultEnabledMap "Shurooq" "06:30" []).2.1 (by decide),
   (malformed_time_handling defaultEnabledMap "Fajr" "ab:cd" [("Dhuhr", "12:00")]).2.2.1
      (by decide) (by decide),
   (malformed_time_handling defaultEnabledMap "Isha" "0745" []).2.2.2.1 (by decide)⟩

/-! ### Helper lemmas for the canonical-order claim -/

lemma indexOf_inj_of_mem {P : List String} {a b : String} (ha : a ∈ P) (hb : b ∈ P)
    (h : P.indexOf a = P.indexOf b) : a = b := by
  have hA : P.indexOf a < P.length := List.indexOf_lt_length.mpr ha
  have hB : P.indexOf b < P.length := List.indexOf_lt_length.mpr hb
  have hga : P.get ⟨P.indexOf a, hA⟩ = a := List.indexOf_get hA
  have hgb : P.get ⟨P.indexOf b, hB⟩ = b := List.indexOf_get hB
  rw [← hga, ← hgb]
  congr 1
  exact Fin.ext h

lemma sublist_of_pairwise_indexOf {P : List String} :
    ∀ (names : List String) (k : Nat),
      (∀ n ∈ names, n ∈ P ∧ k ≤ P.indexOf n) →
      names.Pairwise (fun a b => P.indexOf a < P.indexOf b) →
      names.Sublist (P.drop k) := by
  intro names
  induction names with
  | nil => intro k _ _; exact List.nil_sublist _
  | cons n ns ih =>
    intro k hmem hpw
    have hn := hmem n (List.mem_cons_self n ns)
    have hidx : P.indexOf n < P.length := List.indexOf_lt_length.mpr hn.1
    have hdrop : P.drop (P.indexOf n) = n :: P.drop (P.indexOf n + 1) := by
      rw [List.drop_eq_getElem_cons hidx]
      congr 1
      have hget := @List.indexOf_get String _ n P hidx
      simp only [List.get_eq_getElem] at hget
      exact hget
    have hpw' := List.pairwise_cons.mp hpw
    have hns : ns.Sublist (P.drop (P.indexOf n + 1)) := by
      apply ih
      · intro m hm
        refine ⟨(hmem m (List.mem_cons_of_mem _ hm)).1, ?_⟩
        have := hpw'.1 m hm
        omega
      · exact hpw'.2
    have hcons : (n :: ns).Sublist (P.drop (P.indexOf n)) := by
      rw [hdrop]
      exact hns.cons₂ n
    have hdk : (P.drop (P.indexOf n)).Sublist (P.drop k) := by
      have heq : P.drop (P.indexOf n) = (P.drop k).drop (P.indexOf n - k) := by
        rw [List.drop_drop]
        congr 1
        omega
      rw [heq]
      exact List.drop_sublist _ _
    exact hcons.trans hdk

lemma entryPrayer?_some {em : String → Bool} {e : String × String} {p : Prayer}
    (h : entryPrayer? em e = some p) : p.name = e.1 ∧ e.1 ∈ PRAYER_ORDER := by
  rcases hp : parseTime e.1 e.2 with _ | _ | ⟨hr, mr⟩ <;>
    simp only [entryPrayer?, hp] at h
  · exact absurd h (by simp)
  · exact absurd h (by simp)
  · by_cases hname : e.1 ∈ PRAYER_ORDER
    · rw [if_pos hname] at h
      have hpe : p = mkPrayer e.1 hr mr (em e.1) := (Option.some.inj h).symm
      subst hpe
      exact ⟨rfl, hname⟩
    · rw [if_neg hname] at h
      exact absurd h (by simp)

lemma entryPrayer?_isSome_of_ok {em : String → Bool} {n t : String}
    (hname : n ∈ PRAYER_ORDER) (hok : (parseTime n t).isOk = true) :
    ∃ p, entryPrayer? em (n, t) = some p := by
  rcases hp : parseTime n t with _ | _ | ⟨hr, mr⟩ <;> rw [hp] at hok
  · exact absurd hok (by simp [ParseOutcome.isOk])
  · exact absurd hok (by simp [ParseOutcome.isOk])
  · exact ⟨mkPrayer n hr mr (em n), by simp [entryPrayer?, hp, hname]⟩

lemma buildPrayers_eq_filterMap (em : String → Bool) :
    ∀ (l : List (String × String)) (ps : List Prayer),
      buildPrayers em l = some ps → ps = l.filterMap (entryPrayer? em) := by
  intro l
  induction l with
  | nil =>
    intro ps h
    simp only [buildPrayers, Option.some.injEq] at h
    simp [← h]
  | cons e rest ih =>
    intro ps h
    obtain ⟨name, ts⟩ := e
    by_cases hname : name ∈ PRAYER_ORDER
    · rcases hp : parseTime name ts with _ | _ | ⟨hr, mr⟩ <;>
        simp only [buildPrayers, if_pos hname, hp] at h
      · rw [List.filterMap_cons_none (by simp [entryPrayer?, hp])]
        exact ih ps h
      · exact absurd h (by simp)
      · rcases Option.map_eq_some'.mp h with ⟨qs, hqs, hps⟩
        rw [List.filterMap_cons_some (by simp [entryPrayer?, hp, hname] :
          entryPrayer? em (name, ts) = some (mkPrayer name hr mr (em name)))]
        rw [← hps, ih qs hqs]
    · simp only [buildPrayers, if_neg hname] at h
      rw [List.filterMap_cons_none
        (by cases hp : parseTime name ts <;> simp [entryPrayer?, hp, hname])]
      exact ih ps h

/-- C8: a successfully built schedule lists only canonical names, each at
most once, in canonical order (its name sequence is a sublist of
`PRAYER_ORDER`), for every raw mapping in every iteration order;
non-canonical names are dropped and every canonical entry whose time
parses does appear. -/
theorem canonical_order_schedule (em : String → Bool) (raw : List (String × String))
    (ps : List Prayer) (hkeys : (raw.map Prod.fst).Nodup)
    (hbuild : normalizeTimes em raw = some ps) :
    (ps.map Prayer.name).Sublist PRAYER_ORDER ∧
    (∀ n t, (n, t) ∈ raw → n ∉ PRAYER_ORDER → n ∉ ps.map Prayer.name) ∧
    (∀ n t, (n, t) ∈ raw → n ∈ PRAYER_ORDER → (parseTime n t).isOk = true →
      n ∈ ps.map Prayer.name) := by
  have hperm : (List.insertionSort keyLe raw).Perm raw := List.perm_insertionSort keyLe raw
  have hsorted : List.Pairwise keyLe (List.insertionSort keyLe raw) :=
    List.sorted_insertionSort keyLe raw
  have hnodup : ((List.insertionSort keyLe raw).map Prod.fst).Nodup :=
    ((hperm.map Prod.fst).nodup_iff).mpr hkeys
  have hpwne : (List.insertionSort keyLe raw).Pairwise (fun a b => a.1 ≠ b.1) :=
    (List.pairwise_map.mp hnodup)
  have hps : ps = (List.insertionSort keyLe raw).filterMap (entryPrayer? em) :=
    buildPrayers_eq_filterMap em _ ps hbuild
  have hnames : ps.map Prayer.name
      = (List.insertionSort keyLe raw).filterMap
          (fun e => (entryPrayer? em e).map Prayer.name) := by
    rw [hps, List.map_filterMap]
  have hsub : (ps.map Prayer.name).Sublist PRAYER_ORDER := by
    rw [hnames]
    have hpwnames : ((List.insertionSort keyLe raw).filterMap
        (fun e => (entryPrayer? em e).map Prayer.name)).Pairwise
          (fun a b => PRAYER_ORDER.indexOf a < PRAYER_ORDER.indexOf b) := by
      rw [List.pairwise_filterMap]
      refine (hsorted.and hpwne).imp_of_mem ?_
      intro a b _ _ hr x hx y hy
      rcases Option.map_eq_some'.mp hx with ⟨pa, hpa, hxa⟩
      rcases Option.map_eq_some'.mp hy with ⟨pb, hpb, hyb⟩
      have ha := entryPrayer?_some hpa
      have hb := entryPrayer?_some hpb
      have hka : prayerIdxKey a = PRAYER_ORDER.indexOf a.1 := by
        simp [prayerIdxKey, ha.2]
      have hkb : prayerIdxKey b = PRAYER_ORDER.indexOf b.1 := by
        simp [prayerIdxKey, hb.2]
      have hle : PRAYER_ORDER.indexOf a.1 ≤ PRAYER_ORDER.indexOf b.1 := by
        have := hr.1
        rw [keyLe, hka, hkb] at this
        exact this
      have hne : PRAYER_ORDER.indexOf a.1 ≠ PRAYER_ORDER.indexOf b.1 :=
        fun heq => hr.2 (indexOf_inj_of_mem ha.2 hb.2 heq)
      subst hxa hyb
      rw [ha.1, hb.1]
      omega
    have hmems : ∀ n ∈ (List.insertionSort keyLe raw).filterMap
        (fun e => (entryPrayer? em e).map Prayer.name), n ∈ PRAYER_ORDER := by
      intro n hn
      rcases List.mem_filterMap.mp hn with ⟨e, _, he⟩
      rcases Option.map_eq_some'.mp he with ⟨p, hp, hpn⟩
      have := entryPrayer?_some hp
      rw [← hpn, this.1]
      exact this.2
    have := sublist_of_pairwise_indexOf
      ((List.insertionSort keyLe raw).filterMap
        (fun e => (entryPrayer? em e).map Prayer.name)) 0
      (fun n hn => ⟨hmems n hn, Nat.zero_le _⟩) hpwnames
    simpa using this
  refine ⟨hsub, ?_, ?_⟩
  · intro n t _ hnot hmem
    exact hnot (hsub.subset hmem)
  · intro n t hraw hname hok
    rcases @entryPrayer?_isSome_of_ok em n t hname hok with ⟨p, hp⟩
    have hmem : (n, t) ∈ List.insertionSort keyLe raw := hperm.mem_iff.mpr hraw
    have hpin : p ∈ ps := by
      rw [hps]
      exact List.mem_filterMap.mpr ⟨(n, t), hmem, hp⟩
    have hn : p.name = n := (entryPrayer?_some hp).1
    rw [← hn]
    exact List.mem_map_of_mem Prayer.name hpin

/-- Witness for C8 at a concrete raw mapping given in non-canonical
iteration order with a junk key: the build keeps Fajr and Isha in
canonical order, drops "junk", and includes the parsed entries. -/
theorem canonical_order_schedule_witness :
    (([⟨"Fajr", 312, "05:12", true⟩, ⟨"Isha", 1185, "19:45", true⟩] : List Prayer).map
        Prayer.name).Sublist PRAYER_ORDER ∧
    ("junk" : String) ∉ ([⟨"Fajr", 312, "05:12", true⟩,
        ⟨"Isha", 1185, "19:45", true⟩] : List Prayer).map Prayer.name ∧
    ("Isha" : String) ∈ ([⟨"Fajr", 312, "05:12", true⟩,
        ⟨"Isha", 1185, "19:45", true⟩] : List Prayer).map Prayer.name :=
  have h := canonical_order_schedule defaultEnabledMap
    [("Isha", "07:45"), ("junk", "01:00"), ("Fajr", "05:12")]
    [⟨"Fajr", 312, "05:12", true⟩, ⟨"Isha", 1185, "19:45", true⟩]
    (by decide) (by decide)
  ⟨h.1, h.2.1 "junk" "01:00" (by decide) (by decide),
   h.2.2 "Isha" "07:45" (by decide) (by decide) (by decide)⟩

end Minaret
